import Mathlib

/-!
# Verification of the tx-util RLP codec and transaction signing model

This file embeds the core of the `tx-util` repository in Lean 4:

* `src/rlp.rs` — the `RlpItem` value model, the encoder
  (`From<RlpItem> for Vec<u8>`) and the decoder
  (`From<&mut VecDeque<u8>> for RlpItem`);
* `src/transaction.rs` — the transaction / authorization records, their
  conversions to the value model, and `sign_payload`;
* `src/main.rs` — the CLI signing and recovery fragments that manipulate
  signature triples directly.

Bytes are embedded as `Nat` (the Rust code works on `u8`; theorems carry
explicit octet-range or length bounds wherever the `u8`/`usize` width
matters).  Rust panics (`expect`, out-of-range `drain`) are embedded as
`Except` failure results.  External primitives (Keccak-256, secp256k1
signing) are taken as function parameters.
-/

set_option maxRecDepth 4096

namespace TxUtil

/-- The RLP value model (`enum RlpItem` in `src/rlp.rs`): an item is either
an opaque byte string or an ordered list of items. -/
inductive RlpItem where
  | Data : List Nat → RlpItem
  | List : List RlpItem → RlpItem

/-- Fuel-indexed minimal big-endian digit expansion; `beBytesF k n` agrees
with the minimal big-endian form of `n` whenever `n ≤ k`. -/
def beBytesF : Nat → Nat → List Nat
  | 0, _ => []
  | k + 1, n => if n = 0 then [] else beBytesF k (n / 256) ++ [n % 256]

/-- Minimal big-endian byte representation of a natural number: no leading
zero octet, and `0` maps to the empty byte string.  This is what the Rust
code computes with `to_be_bytes` followed by `skip_while(|b| *b == 0x0)`. -/
def beBytes (n : Nat) : List Nat := beBytesF n n

/-- Fixed-width (`k`-octet) big-endian representation, as produced by the
Rust `to_be_bytes::<k>()` calls before any stripping, and by the k256
scalar `to_bytes()` (which is always 32 octets). -/
def padBe : Nat → Nat → List Nat
  | 0, _ => []
  | k + 1, n => padBe k (n / 256) ++ [n % 256]

/-- Big-endian length reconstruction used by the decoder:
`len.into_iter().fold(0u64, |a, b| a * 256 + b as u64)`. -/
def foldLen (l : List Nat) : Nat := l.foldl (fun a b => a * 256 + b) 0

/-- `VecDeque::drain(0..n)`: removes and returns the first `n` elements,
panicking (here: `none`) when fewer than `n` remain. -/
def drain (n : Nat) (bs : List Nat) : Option (List Nat × List Nat) :=
  if n ≤ bs.length then some (bs.take n, bs.drop n) else none

/-- Encoding of a `Data` item, following the `RlpItem::Data` arm of
`From<RlpItem> for Vec<u8>`: a single octet `≤ 0x7F` is emitted verbatim;
0–55 octets get the `0x80 + len` header; 56 octets or more get the
`0xB7 + len_of_len` header followed by the minimal big-endian length. -/
def encodeData (d : List Nat) : List Nat :=
  if d.length = 1 ∧ d.headI ≤ 0x7F then d
  else if d.length ≤ 55 then (0x80 + d.length) :: d
  else (0xB7 + (beBytes d.length).length) :: (beBytes d.length ++ d)

mutual

/-- The RLP encoder (`From<RlpItem> for Vec<u8>` in `src/rlp.rs`), a pure
total function from items to byte sequences. -/
def encode_rlp : RlpItem → List Nat
  | .Data d => encodeData d
  | .List items =>
    let payload := encodeList items
    if payload.length ≤ 55 then (0xC0 + payload.length) :: payload
    else (0xF7 + (beBytes payload.length).length) :: (beBytes payload.length ++ payload)

/-- Concatenation of the encodings of a list's children, in order
(the `flat_map` in the `RlpItem::List` arm of the encoder). -/
def encodeList : List RlpItem → List Nat
  | [] => []
  | i :: is => encode_rlp i ++ encodeList is

end

mutual

/-- Representability of an item as actual Rust data: every data octet fits
in a `u8` and every byte-string length fits in a `usize`/`u64` (the encoder
computes length headers through `u8`/`usize` arithmetic). -/
def wfRlp : RlpItem → Bool
  | .Data d => d.all (fun b => decide (b ≤ 0xFF)) && decide (d.length < 2 ^ 64)
  | .List items => wfList items && decide ((encodeList items).length < 2 ^ 64)

/-- `wfRlp` for every member of a list of items. -/
def wfList : List RlpItem → Bool
  | [] => true
  | i :: is => wfRlp i && wfList is

end

/-- Decode failure modes: the decoder's `pop_front().expect("no more
bytes")` on an empty buffer, and the out-of-range `drain` when a declared
length exceeds the remaining octets.  There is no invalid-prefix case. -/
inductive DecodeErr where
  | EmptyInput : DecodeErr
  | TruncatedInput : DecodeErr
deriving DecidableEq

/-- The decoder's list loop (`while !items.is_empty()` in the
`0xC0..=0xFF` arm): repeatedly decode one child from the drained sub-span
until it is exhausted.  The counter `g` only bounds the number of
iterations; each successful child consumes at least one octet, so `g` at
least the span length never runs out. -/
def runItems (dec : List Nat → Except DecodeErr (RlpItem × List Nat)) :
    Nat → List Nat → Except DecodeErr (List RlpItem)
  | _, [] => .ok []
  | 0, _ :: _ => .error .TruncatedInput
  | g + 1, b :: bs =>
    match dec (b :: bs) with
    | .error e => .error e
    | .ok (i, rest) =>
      match runItems dec g rest with
      | .error e => .error e
      | .ok is => .ok (i :: is)

/-- One step of the RLP decoder (`From<&mut VecDeque<u8>> for RlpItem` in
`src/rlp.rs`): pop the first octet, dispatch on its range, drain the
declared spans, and decode list children with the child decoder `dec`.
It consumes exactly the octets of one item and returns the untouched
remainder of the buffer. -/
def decodeItemStep (dec : List Nat → Except DecodeErr (RlpItem × List Nat)) :
    List Nat → Except DecodeErr (RlpItem × List Nat)
  | [] => .error .EmptyInput
  | b :: rest =>
    if b ≤ 0x7F then
      .ok (.Data [b], rest)
    else if b ≤ 0xBF then
      if b ≤ 0xB7 then
        match drain (b - 0x80) rest with
        | none => .error .TruncatedInput
        | some (item, rest1) => .ok (.Data item, rest1)
      else
        match drain (b - 0xB7) rest with
        | none => .error .TruncatedInput
        | some (lenBytes, rest1) =>
          match drain (foldLen lenBytes) rest1 with
          | none => .error .TruncatedInput
          | some (item, rest2) => .ok (.Data item, rest2)
    else
      if b ≤ 0xF7 then
        match drain (b - 0xC0) rest with
        | none => .error .TruncatedInput
        | some (sub, rest1) =>
          match runItems dec sub.length sub with
          | .error e => .error e
          | .ok items => .ok (.List items, rest1)
      else
        match drain (b - 0xF7) rest with
        | none => .error .TruncatedInput
        | some (lenBytes, rest1) =>
          match drain (foldLen lenBytes) rest1 with
          | none => .error .TruncatedInput
          | some (sub, rest2) =>
            match runItems dec sub.length sub with
            | .error e => .error e
            | .ok items => .ok (.List items, rest2)

/-- The RLP decoder, fuel-indexed to bound the recursion into list
sub-spans.  The fuel only bounds nesting depth; each level consumes at
least one octet before recursing, so fuel beyond the buffer length never
runs out. -/
def decodeItem : Nat → List Nat → Except DecodeErr (RlpItem × List Nat)
  | 0, _ => .error .TruncatedInput
  | fuel + 1, bs => decodeItemStep (decodeItem fuel) bs

/-- Top-level decode of one value from a byte buffer, returning the value
together with the unread suffix left in the deque.  Fuel one beyond the
buffer length always suffices, since every nesting level consumes at
least one octet. -/
def decode_rlp (bs : List Nat) : Except DecodeErr (RlpItem × List Nat) :=
  decodeItem (bs.length + 1) bs

/-- The RLP boolean payload (`From<bool> for RlpItem` in `src/rlp.rs`):
empty byte string for `false`, the single octet `0x01` for `true`. -/
def boolToRlpData (b : Bool) : List Nat := if b then [0x1] else []

/-- `From<bool> for RlpItem`. -/
def boolToRlp (b : Bool) : RlpItem := .Data (boolToRlpData b)

/-- `From<U64> for RlpItem`: the 8-octet big-endian form with leading zero
octets stripped (`to_be_bytes::<8>()` then `skip_while(|b| *b == 0x0)`). -/
def u64ToRlp (n : Nat) : RlpItem :=
  .Data ((padBe 8 n).dropWhile (fun b => b == 0))

/-- `From<U256> for RlpItem`: the 32-octet big-endian form with leading
zero octets stripped. -/
def u256ToRlp (n : Nat) : RlpItem :=
  .Data ((padBe 32 n).dropWhile (fun b => b == 0))

/-- A signature triple (`struct Signature` in `src/transaction.rs`):
`y_parity` is the recovery-id parity, `r` and `s` the 256-bit scalars. -/
structure Signature where
  y_parity : Bool
  r : Nat
  s : Nat

/-- `struct AccessListItem`: an address (20 octets) plus an ordered list
of 32-octet storage keys. -/
structure AccessListItem where
  address : List Nat
  storage_keys : List (List Nat)

/-- `struct Authorization` (EIP-7702): chain id, delegated-to address,
optional nonce, optional signature triple. -/
structure Authorization where
  chain_id : Nat
  address : List Nat
  nonce : Option Nat
  signature : Option Signature

/-- `struct Eip1559`: the EIP-1559 transaction record. -/
structure Eip1559 where
  chain_id : Nat
  nonce : Nat
  max_priority_fee_per_gas : Nat
  max_fee_per_gas : Nat
  gas_limit : Nat
  destination : List Nat
  amount : Nat
  data : List Nat
  access_list : List AccessListItem
  signature : Option Signature

/-- `struct Eip7702`: the EIP-7702 transaction record, with an
authorization list in addition to the EIP-1559 fields. -/
structure Eip7702 where
  chain_id : Nat
  nonce : Nat
  max_priority_fee_per_gas : Nat
  max_fee_per_gas : Nat
  gas_limit : Nat
  destination : List Nat
  amount : Nat
  data : List Nat
  access_list : List AccessListItem
  authorization_list : List Authorization
  signature : Option Signature

/-- `From<Signature> for Vec<RlpItem>`: the three trailing children
`y_parity`, `r`, `s`, in that order. -/
def rlpOfSignature (sig : Signature) : List RlpItem :=
  [boolToRlp sig.y_parity, u256ToRlp sig.r, u256ToRlp sig.s]

/-- The children appended for an optional signature
(`if let Some(signature) = value.signature { ... }`). -/
def sigItems : Option Signature → List RlpItem
  | none => []
  | some sig => rlpOfSignature sig

/-- `From<Vec<AccessListItem>> for RlpItem`. -/
def rlpOfAccessList (al : List AccessListItem) : RlpItem :=
  .List (al.map (fun item =>
    .List [.Data item.address, .List (item.storage_keys.map (fun k => .Data k))]))

/-- `From<Authorization> for RlpItem`: chain id, address, then the nonce
wrapper list (`value.nonce.map(|n| vec![n.into()]).unwrap_or(vec![])`),
then the signature children when a signature is present. -/
def rlpOfAuthorization (a : Authorization) : RlpItem :=
  .List ([u256ToRlp a.chain_id, .Data a.address,
    .List ((a.nonce.map (fun n => [u64ToRlp n])).getD [])] ++ sigItems a.signature)

/-- `From<Vec<Authorization>> for RlpItem`. -/
def rlpOfAuthorizationList (l : List Authorization) : RlpItem :=
  .List (l.map rlpOfAuthorization)

/-- `From<Eip1559> for RlpItem`: the fixed field order, with the
signature children appended only when a signature is present. -/
def rlpOfEip1559 (tx : Eip1559) : RlpItem :=
  .List ([u256ToRlp tx.chain_id, u64ToRlp tx.nonce,
    u256ToRlp tx.max_priority_fee_per_gas, u256ToRlp tx.max_fee_per_gas,
    u256ToRlp tx.gas_limit, .Data tx.destination, u256ToRlp tx.amount,
    .Data tx.data, rlpOfAccessList tx.access_list] ++ sigItems tx.signature)

/-- `From<Eip7702> for RlpItem`: as EIP-1559 plus the authorization list
before the optional signature children. -/
def rlpOfEip7702 (tx : Eip7702) : RlpItem :=
  .List ([u256ToRlp tx.chain_id, u64ToRlp tx.nonce,
    u256ToRlp tx.max_priority_fee_per_gas, u256ToRlp tx.max_fee_per_gas,
    u256ToRlp tx.gas_limit, .Data tx.destination, u256ToRlp tx.amount,
    .Data tx.data, rlpOfAccessList tx.access_list,
    rlpOfAuthorizationList tx.authorization_list] ++ sigItems tx.signature)

/-- `EIP1559_TX_TYPE` in `src/transaction.rs`. -/
def EIP1559_TX_TYPE : Nat := 2

/-- `EIP7702_TX_TYPE` in `src/transaction.rs`. -/
def EIP7702_TX_TYPE : Nat := 4

/-- `AUTHORIZATION_MAGIC` in `src/transaction.rs`. -/
def AUTHORIZATION_MAGIC : Nat := 5

/-- `fn sign_payload` in `src/transaction.rs`: prepend the magic octet,
hash with Keccak-256, sign the digest with the secp256k1 prehash signer.
The two external primitives (`sha3::Keccak256`, `k256::ecdsa`) are taken
as parameters; `ecdsa signer digest` returns `(r, s, recovery_id)` with
the recovery id represented by its byte.  `y_parity` is
`recovery_id.is_y_odd()`, i.e. the low bit of the recovery id. -/
def sign_payload (keccak : List Nat → List Nat)
    (ecdsa : List Nat → List Nat → Nat × Nat × Nat)
    (payload : List Nat) (magic : Nat) (signer : List Nat) : Signature :=
  let digest := keccak (magic :: payload)
  let rsv := ecdsa signer digest
  { y_parity := rsv.2.2 % 2 == 1, r := rsv.1, s := rsv.2.1 }

/-- `Authorization::sign`: clear any existing signature, convert to the
value model, encode, sign with the authorization magic, attach. -/
def Authorization.sign (keccak : List Nat → List Nat)
    (ecdsa : List Nat → List Nat → Nat × Nat × Nat)
    (a : Authorization) (signer : List Nat) : Authorization :=
  let unsigned : Authorization := { a with signature := none }
  { unsigned with signature := some (sign_payload keccak ecdsa
      (encode_rlp (rlpOfAuthorization unsigned)) AUTHORIZATION_MAGIC signer) }

/-- `Eip1559::sign`: clear any existing signature, convert, encode, sign
with type byte 2, attach. -/
def Eip1559.sign (keccak : List Nat → List Nat)
    (ecdsa : List Nat → List Nat → Nat × Nat × Nat)
    (tx : Eip1559) (signer : List Nat) : Eip1559 :=
  let unsigned : Eip1559 := { tx with signature := none }
  { unsigned with signature := some (sign_payload keccak ecdsa
      (encode_rlp (rlpOfEip1559 unsigned)) EIP1559_TX_TYPE signer) }

/-- `Eip7702::sign`: clear any existing signature, convert, encode, sign
with type byte 4, attach. -/
def Eip7702.sign (keccak : List Nat → List Nat)
    (ecdsa : List Nat → List Nat → Nat × Nat × Nat)
    (tx : Eip7702) (signer : List Nat) : Eip7702 :=
  let unsigned : Eip7702 := { tx with signature := none }
  { unsigned with signature := some (sign_payload keccak ecdsa
      (encode_rlp (rlpOfEip7702 unsigned)) EIP7702_TX_TYPE signer) }

/-- The signature-boolean child written by the CLI `sign-tx` / `sign-auth`
commands (`src/main.rs`): empty data when the recovery-id byte is zero,
the octet `0x01` otherwise. -/
def cliYItem (recid : Nat) : RlpItem :=
  .Data (if recid == 0 then [] else [0x1])

/-- The `r` / `s` children written by the CLI `sign-tx` / `sign-auth`
commands (`src/main.rs`): `RlpItem::Data(signature.r().to_bytes().to_vec())`,
the raw fixed 32-octet big-endian scalar encoding, with no stripping of
leading zero octets. -/
def cliScalarItem (x : Nat) : RlpItem := .Data (padBe 32 x)

/-- Recovery-id reconstruction in the CLI `recover-address` command
(`src/main.rs`): `if signature[0].data().is_empty() { 0 } else { 1 }`. -/
def recidOfYData (d : List Nat) : Nat := if d.isEmpty then 0 else 1

/-- The secp256k1 group order: ECDSA `r` and `s` scalars lie in
`[1, secp256k1_n)`. -/
def secp256k1_n : Nat :=
  0xFFFFFFFFFFFFFFFFFFFFFFFFFFFFFFFEBAAEDCE6AF48A03BBFD25E8CD0364141

/-- An `RlpItem.Data` child carries no leading zero octet (the minimal
big-endian integer-encoding invariant); list children are unconstrained. -/
def rlpDataNoLeadingZero : RlpItem → Prop
  | .Data d => d.head? ≠ some 0
  | .List _ => True

/-- Error for the bulk-authorization signing flow. -/
inductive TxError where
  | AuthorizerCountMismatch : TxError
deriving DecidableEq

/-- Modelled from the spec: the positional matching of per-authorization
keys to the unsigned entries of an authorization list (the CLI
`--authorizer` flow exercised by `tests/integration_tests.rs` is not
present under `src/`).  Entries already signed are kept; each unsigned
entry is signed with the next supplied key. -/
def signAuthorizations (signOne : Authorization → List Nat → Authorization) :
    List Authorization → List (List Nat) → List Authorization
  | [], _ => []
  | a :: rest, keys =>
    if a.signature.isSome then a :: signAuthorizations signOne rest keys
    else
      match keys with
      | [] => a :: signAuthorizations signOne rest []
      | k :: ks => signOne a k :: signAuthorizations signOne rest ks

/-- Modelled from the spec: bulk-signing an EIP-7702 transaction's
authorization list (absent from `src/`; exercised by the integration
tests).  The number of supplied keys must exactly equal the number of
entries requiring a signature; a mismatch is a hard error
(`AuthorizerCountMismatch`) producing no partial output. -/
def signAuthorizationList (signOne : Authorization → List Nat → Authorization)
    (auths : List Authorization) (keys : List (List Nat)) :
    Except TxError (List Authorization) :=
  if (auths.filter (fun a => a.signature.isNone)).length = keys.length then
    .ok (signAuthorizations signOne auths keys)
  else .error .AuthorizerCountMismatch

/-! ## Helper lemmas about the byte-level primitives -/

theorem beBytesF_zero (k : Nat) : beBytesF k 0 = [] := by
  cases k <;> simp [beBytesF]

theorem beBytesF_stable (n : Nat) :
    ∀ k₁ k₂, n ≤ k₁ → n ≤ k₂ → beBytesF k₁ n = beBytesF k₂ n := by
  induction n using Nat.strong_induction_on with
  | _ n ih =>
    intro k₁ k₂ h₁ h₂
    rcases Nat.eq_zero_or_pos n with rfl | hn
    · rw [beBytesF_zero, beBytesF_zero]
    · obtain ⟨a, rfl⟩ : ∃ a, k₁ = a + 1 := ⟨k₁ - 1, by omega⟩
      obtain ⟨b, rfl⟩ : ∃ b, k₂ = b + 1 := ⟨k₂ - 1, by omega⟩
      have hd : n / 256 < n := Nat.div_lt_self hn (by norm_num)
      simp only [beBytesF, if_neg (by omega : ¬ n = 0)]
      rw [ih (n / 256) hd a b (by omega) (by omega)]

theorem beBytes_zero : beBytes 0 = [] := rfl

theorem beBytes_succ (n : Nat) (hn : n ≠ 0) :
    beBytes n = beBytes (n / 256) ++ [n % 256] := by
  obtain ⟨m, rfl⟩ : ∃ m, n = m + 1 := ⟨n - 1, by omega⟩
  show beBytesF (m + 1) (m + 1) = _
  simp only [beBytesF, if_neg hn]
  rw [beBytesF_stable ((m + 1) / 256) m ((m + 1) / 256)
    (by omega) (le_refl _)]
  rfl

theorem beBytes_eq_nil_iff (n : Nat) : beBytes n = [] ↔ n = 0 := by
  constructor
  · intro h
    by_contra hn
    rw [beBytes_succ n hn] at h
    simp at h
  · rintro rfl
    rfl

theorem beBytes_head (n : Nat) : (beBytes n).head? ≠ some 0 := by
  induction n using Nat.strong_induction_on with
  | _ n ih =>
    rcases Nat.eq_zero_or_pos n with rfl | hn
    · simp [beBytes_zero]
    · rw [beBytes_succ n (by omega)]
      rcases Nat.eq_zero_or_pos (n / 256) with hz | hp
      · have hlt : n < 256 := by
          by_contra hge
          have : 1 ≤ n / 256 := Nat.one_le_div_iff (by norm_num) |>.mpr (by omega)
          omega
        rw [hz, beBytes_zero]
        simp only [List.nil_append, List.head?_cons, ne_eq, Option.some.injEq]
        omega
      · obtain ⟨a, t, he⟩ : ∃ a t, beBytes (n / 256) = a :: t := by
          rcases h : beBytes (n / 256) with _ | ⟨a, t⟩
          · exact absurd ((beBytes_eq_nil_iff _).mp h) (by omega)
          · exact ⟨a, t, rfl⟩
        have hih := ih (n / 256) (Nat.div_lt_self hn (by norm_num))
        rw [he] at hih ⊢
        simpa using hih

theorem foldLen_beBytes (n : Nat) : foldLen (beBytes n) = n := by
  induction n using Nat.strong_induction_on with
  | _ n ih =>
    rcases Nat.eq_zero_or_pos n with rfl | hn
    · rfl
    · rw [beBytes_succ n (by omega)]
      have hih := ih (n / 256) (Nat.div_lt_self hn (by norm_num))
      unfold foldLen at hih ⊢
      rw [List.foldl_append, hih]
      simp only [List.foldl_cons, List.foldl_nil]
      omega

theorem beBytes_length_le (k n : Nat) (h : n < 256 ^ k) :
    (beBytes n).length ≤ k := by
  induction k generalizing n with
  | zero =>
    have : n = 0 := by simpa using h
    simp [this, beBytes_zero]
  | succ k ih =>
    rcases Nat.eq_zero_or_pos n with rfl | hn
    · simp [beBytes_zero]
    · rw [beBytes_succ n (by omega)]
      have hd : n / 256 < 256 ^ k := by
        rw [Nat.div_lt_iff_lt_mul (by norm_num)]
        calc n < 256 ^ (k + 1) := h
          _ = 256 ^ k * 256 := by ring
      have := ih _ hd
      simp only [List.length_append, List.length_cons, List.length_nil]
      omega

theorem padBe_zero_val (k : Nat) : padBe k 0 = List.replicate k 0 := by
  induction k with
  | zero => rfl
  | succ k ih =>
    rw [List.replicate_succ']
    simp [padBe, ih]

theorem padBe_eq (k n : Nat) (h : n < 256 ^ k) :
    padBe k n = List.replicate (k - (beBytes n).length) 0 ++ beBytes n := by
  induction k generalizing n with
  | zero =>
    have : n = 0 := by simpa using h
    simp [this, beBytes_zero, padBe]
  | succ k ih =>
    rcases Nat.eq_zero_or_pos n with rfl | hn
    · simp [padBe_zero_val, beBytes_zero]
    · have hd : n / 256 < 256 ^ k := by
        rw [Nat.div_lt_iff_lt_mul (by norm_num)]
        calc n < 256 ^ (k + 1) := h
          _ = 256 ^ k * 256 := by ring
      have hlen : (beBytes (n / 256)).length ≤ k := beBytes_length_le k _ hd
      have hstep : padBe (k + 1) n = padBe k (n / 256) ++ [n % 256] := rfl
      rw [hstep, ih _ hd, beBytes_succ n (by omega), List.append_assoc]
      have : k + 1 - (beBytes (n / 256) ++ [n % 256]).length
          = k - (beBytes (n / 256)).length := by
        simp only [List.length_append, List.length_cons, List.length_nil]
        omega
      rw [this]

theorem dropWhile_replicate_zero (m : Nat) (l : List Nat)
    (h : l.head? ≠ some 0) :
    (List.replicate m 0 ++ l).dropWhile (fun b => b == 0) = l := by
  induction m with
  | zero =>
    simp only [List.replicate, List.nil_append]
    cases l with
    | nil => rfl
    | cons a t =>
      have ha : ¬ a = 0 := by simpa using h
      simp [List.dropWhile_cons, ha]
  | succ m ih =>
    simp [List.replicate_succ, List.dropWhile_cons, ih]

theorem u64ToRlp_eq (n : Nat) (h : n < 2 ^ 64) :
    u64ToRlp n = .Data (beBytes n) := by
  unfold u64ToRlp
  rw [padBe_eq 8 n (by norm_num at h ⊢; omega),
    dropWhile_replicate_zero _ _ (beBytes_head n)]

theorem u256ToRlp_eq (n : Nat) (h : n < 2 ^ 256) :
    u256ToRlp n = .Data (beBytes n) := by
  unfold u256ToRlp
  rw [padBe_eq 32 n (by norm_num at h ⊢; omega),
    dropWhile_replicate_zero _ _ (beBytes_head n)]

theorem decodeItem_succ (fuel : Nat) (bs : List Nat) :
    decodeItem (fuel + 1) bs = decodeItemStep (decodeItem fuel) bs := by
  unfold decodeItem
  rfl

theorem drain_append (xs ys : List Nat) :
    drain xs.length (xs ++ ys) = some (xs, ys) := by
  unfold drain
  rw [if_pos (by simp)]
  rw [List.take_left, List.drop_left]

theorem encode_rlp_ne_nil (v : RlpItem) : encode_rlp v ≠ [] := by
  cases v with
  | Data d =>
    show encodeData d ≠ []
    unfold encodeData
    split
    · rename_i h
      intro hnil
      rw [hnil] at h
      simp at h
    · split <;> simp
  | List items =>
    unfold encode_rlp
    dsimp
    split <;> simp

theorem mem_encodeList_le (i : RlpItem) (items : List RlpItem) (h : i ∈ items) :
    (encode_rlp i).length ≤ (encodeList items).length := by
  induction items with
  | nil => cases h
  | cons j js ih =>
    unfold encodeList
    rcases List.mem_cons.mp h with rfl | h'
    · simp
    · have := ih h'
      simp only [List.length_append]
      omega

theorem wfList_mem (items : List RlpItem) (h : wfList items = true)
    (i : RlpItem) (hi : i ∈ items) : wfRlp i = true := by
  induction items with
  | nil => cases hi
  | cons j js ih =>
    unfold wfList at h
    rw [Bool.and_eq_true] at h
    rcases List.mem_cons.mp hi with rfl | h'
    · exact h.1
    · exact ih h.2 h'

theorem runItems_payload (dec : List Nat → Except DecodeErr (RlpItem × List Nat))
    (items : List RlpItem)
    (hdec : ∀ i ∈ items, ∀ suffix, dec (encode_rlp i ++ suffix) = .ok (i, suffix)) :
    ∀ g, (encodeList items).length ≤ g →
      runItems dec g (encodeList items) = .ok items := by
  induction items with
  | nil =>
    intro g hg
    unfold encodeList
    cases g <;> rfl
  | cons i is ih =>
    intro g hg
    unfold encodeList at hg ⊢
    have hne : encode_rlp i ≠ [] := encode_rlp_ne_nil i
    have hlen : 1 ≤ (encode_rlp i).length := by
      rcases h : encode_rlp i with _ | ⟨b, t⟩
      · exact absurd h hne
      · simp [h]
    obtain ⟨b, bs, hb⟩ : ∃ b bs, encode_rlp i ++ encodeList is = b :: bs := by
      rcases h : encode_rlp i with _ | ⟨b, t⟩
      · exact absurd h hne
      · exact ⟨b, t ++ encodeList is, by simp [h]⟩
    obtain ⟨g', rfl⟩ : ∃ g', g = g' + 1 := by
      refine ⟨g - 1, ?_⟩
      rw [List.length_append] at hg
      omega
    rw [hb]
    unfold runItems
    rw [← hb, hdec i (by simp) (encodeList is)]
    have hih := ih (fun j hj s => hdec j (by simp [hj]) s) g'
      (by rw [List.length_append] at hg; omega)
    simp [hih]

theorem decodeItem_encode (fuel : Nat) :
    ∀ v : RlpItem, wfRlp v = true → (encode_rlp v).length < fuel →
      ∀ suffix, decodeItem fuel (encode_rlp v ++ suffix) = .ok (v, suffix) := by
  induction fuel with
  | zero =>
    intro v _ h
    omega
  | succ f ih =>
    intro v hwf hlen suffix
    cases v with
    | Data d =>
      simp only [wfRlp, Bool.and_eq_true, decide_eq_true_eq] at hwf
      have hL64 : d.length < 2 ^ 64 := hwf.2
      simp only [encode_rlp]
      unfold encodeData
      by_cases h1 : d.length = 1 ∧ d.headI ≤ 0x7F
      · obtain ⟨b, rfl⟩ : ∃ b, d = [b] := List.length_eq_one.mp h1.1
        have hb : b ≤ 0x7F := by simpa using h1.2
        rw [if_pos h1, List.singleton_append, decodeItem_succ]
        simp only [decodeItemStep]
        rw [if_pos hb]
      · rw [if_neg h1]
        by_cases h55 : d.length ≤ 55
        · rw [if_pos h55, List.cons_append, decodeItem_succ]
          simp only [decodeItemStep]
          rw [if_neg (by omega), if_pos (by omega), if_pos (by omega)]
          rw [show 0x80 + d.length - 0x80 = d.length from by omega]
          rw [drain_append d suffix]
        · rw [if_neg h55]
          have hLpos : d.length ≠ 0 := by omega
          have hKnil : beBytes d.length ≠ [] :=
            fun h => hLpos ((beBytes_eq_nil_iff _).mp h)
          have hK1 : 1 ≤ (beBytes d.length).length := by
            rcases h : beBytes d.length with _ | ⟨a, t⟩
            · exact absurd h hKnil
            · simp
          have hK8 : (beBytes d.length).length ≤ 8 :=
            beBytes_length_le 8 d.length (by norm_num at hL64 ⊢; omega)
          rw [List.cons_append, List.append_assoc, decodeItem_succ]
          simp only [decodeItemStep]
          rw [if_neg (by omega), if_pos (by omega), if_neg (by omega)]
          rw [show 0xB7 + (beBytes d.length).length - 0xB7
            = (beBytes d.length).length from by omega]
          rw [drain_append (beBytes d.length) (d ++ suffix)]
          dsimp only
          rw [foldLen_beBytes, drain_append d suffix]
    | List items =>
      simp only [wfRlp, Bool.and_eq_true, decide_eq_true_eq] at hwf
      obtain ⟨hwl, hP64⟩ := hwf
      have hchild : ∀ i ∈ items, ∀ s,
          decodeItem f (encode_rlp i ++ s) = .ok (i, s) := by
        intro i hi s
        have h1 : (encode_rlp i).length ≤ (encodeList items).length :=
          mem_encodeList_le i items hi
        have h2 : (encodeList items).length < (encode_rlp (.List items)).length := by
          simp only [encode_rlp]
          split
          · simp
          · simp
            omega
        exact ih i (wfList_mem items hwl i hi) (by omega) s
      simp only [encode_rlp]
      by_cases hs : (encodeList items).length ≤ 55
      · rw [if_pos hs]
        have hrun : runItems (decodeItem f) (encodeList items).length
            (encodeList items) = .ok items :=
          runItems_payload (decodeItem f) items hchild _ (le_refl _)
        rw [List.cons_append, decodeItem_succ]
        simp only [decodeItemStep]
        rw [if_neg (by omega), if_neg (by omega), if_pos (by omega)]
        rw [show 0xC0 + (encodeList items).length - 0xC0
          = (encodeList items).length from by omega]
        rw [drain_append (encodeList items) suffix]
        dsimp only
        rw [hrun]
      · rw [if_neg hs]
        have hLpos : (encodeList items).length ≠ 0 := by omega
        have hKnil : beBytes (encodeList items).length ≠ [] :=
          fun h => hLpos ((beBytes_eq_nil_iff _).mp h)
        have hK1 : 1 ≤ (beBytes (encodeList items).length).length := by
          rcases h : beBytes (encodeList items).length with _ | ⟨a, t⟩
          · exact absurd h hKnil
          · simp
        have hK8 : (beBytes (encodeList items).length).length ≤ 8 :=
          beBytes_length_le 8 _ (by norm_num at hP64 ⊢; omega)
        have hrun : runItems (decodeItem f) (encodeList items).length
            (encodeList items) = .ok items :=
          runItems_payload (decodeItem f) items hchild _ (le_refl _)
        rw [List.cons_append, List.append_assoc, decodeItem_succ]
        simp only [decodeItemStep]
        rw [if_neg (by omega), if_neg (by omega), if_neg (by omega)]
        rw [show 0xF7 + (beBytes (encodeList items).length).length - 0xF7
          = (beBytes (encodeList items).length).length from by omega]
        rw [drain_append (beBytes (encodeList items).length)
          (encodeList items ++ suffix)]
        dsimp only
        rw [foldLen_beBytes, drain_append (encodeList items) suffix]
        dsimp only
        rw [hrun]

theorem drain_all (bs : List Nat) : drain bs.length bs = some (bs, []) := by
  unfold drain
  rw [if_pos (le_refl _), List.take_length, List.drop_length]

theorem foldLen_zeros (m : Nat) : foldLen (List.replicate m 0) = 0 := by
  induction m with
  | zero => rfl
  | succ m ih =>
    rw [List.replicate_succ]
    unfold foldLen at ih ⊢
    simpa using ih

theorem runItems_zeros (fuel : Nat) :
    ∀ n g, n ≤ g →
      runItems (decodeItem (fuel + 1)) g (List.replicate n 0)
        = .ok (List.replicate n (.Data [0])) := by
  intro n
  induction n with
  | zero =>
    intro g _
    rw [List.replicate_zero, List.replicate_zero]
    cases g <;> rfl
  | succ n ih =>
    intro g hg
    obtain ⟨g', rfl⟩ : ∃ g', g = g' + 1 := ⟨g - 1, by omega⟩
    rw [List.replicate_succ]
    unfold runItems
    rw [decodeItem_succ]
    simp only [decodeItemStep]
    rw [if_pos (by omega : (0 : Nat) ≤ 0x7F)]
    dsimp only
    rw [ih g' (by omega), List.replicate_succ]

/-! ## Claim theorems -/

/-- **C1**: for every value `v` representable by the Rust program (octets
fit `u8`, lengths fit `usize`), decoding the byte sequence produced by
encoding `v` followed by any suffix yields `v` again, consuming exactly
the octets of `encode(v)` and leaving the suffix unread. -/
theorem C1_decode_encode_roundtrip (v : RlpItem) (hwf : wfRlp v = true)
    (suffix : List Nat) :
    decode_rlp (encode_rlp v ++ suffix) = .ok (v, suffix) := by
  unfold decode_rlp
  exact decodeItem_encode ((encode_rlp v ++ suffix).length + 1) v hwf
    (by rw [List.length_append]; omega) suffix

/-- Witness for C1 at a concrete nested value with a nonempty suffix. -/
theorem C1_decode_encode_roundtrip_witness :
    decode_rlp (encode_rlp
        (.List [.Data [0x01, 0x02], .List [.Data [0x7F], .List []], .Data []])
      ++ [0xAB, 0xCD])
      = .ok (.List [.Data [0x01, 0x02], .List [.Data [0x7F], .List []], .Data []],
          [0xAB, 0xCD]) :=
  C1_decode_encode_roundtrip
    (.List [.Data [0x01, 0x02], .List [.Data [0x7F], .List []], .Data []])
    (by decide) [0xAB, 0xCD]

/-- **C2**: the `U64` / `U256` → value-model conversions produce the
minimal big-endian byte string: equal to `beBytes n`, which carries no
leading zero octet, and `n = 0` converts to the empty byte string (not to
`[0x00]`). -/
theorem C2_integer_minimality :
    (∀ n : Nat, n < 2 ^ 64 → u64ToRlp n = .Data (beBytes n))
    ∧ (∀ n : Nat, n < 2 ^ 256 → u256ToRlp n = .Data (beBytes n))
    ∧ (∀ n : Nat, (beBytes n).head? ≠ some 0)
    ∧ beBytes 0 = [] :=
  ⟨u64ToRlp_eq, u256ToRlp_eq, beBytes_head, rfl⟩

/-- Witness for C2 at `n = 0` (empty byte string) and at a nonzero value. -/
theorem C2_integer_minimality_witness :
    u64ToRlp 0 = .Data (beBytes 0) ∧ u256ToRlp 0x1234 = .Data (beBytes 0x1234) :=
  ⟨C2_integer_minimality.1 0 (by norm_num),
   C2_integer_minimality.2.1 0x1234 (by norm_num)⟩

/-- **C3**: a byte string of exactly 55 octets, or a list whose payload is
exactly 55 octets, uses the short-form header (`0x80 + 55 = 0xB7`,
`0xC0 + 55 = 0xF7`); at 56 octets the encoder switches to the long form:
header `0xB7 + 1 = 0xB8` (resp. `0xF7 + 1 = 0xF8`) followed by the
1-octet minimal big-endian length `56`. -/
theorem C3_boundary_55_56 :
    (∀ d : List Nat, d.length = 55 → encode_rlp (.Data d) = 0xB7 :: d)
    ∧ (∀ d : List Nat, d.length = 56 → encode_rlp (.Data d) = 0xB8 :: 56 :: d)
    ∧ (∀ items : List RlpItem, (encodeList items).length = 55 →
        encode_rlp (.List items) = 0xF7 :: encodeList items)
    ∧ (∀ items : List RlpItem, (encodeList items).length = 56 →
        encode_rlp (.List items) = 0xF8 :: 56 :: encodeList items) := by
  refine ⟨?_, ?_, ?_, ?_⟩
  · intro d h
    simp only [encode_rlp]
    unfold encodeData
    rw [if_neg (by rw [h]; simp), if_pos (by omega), h]
  · intro d h
    simp only [encode_rlp]
    unfold encodeData
    rw [if_neg (by rw [h]; simp), if_neg (by omega), h]
    rfl
  · intro items h
    simp only [encode_rlp]
    rw [if_pos (by omega), h]
  · intro items h
    simp only [encode_rlp]
    rw [if_neg (by omega), h]
    rfl

/-- Witness for C3 at concrete 55- and 56-octet payloads. -/
theorem C3_boundary_55_56_witness :
    encode_rlp (.Data (List.replicate 55 1)) = 0xB7 :: List.replicate 55 1
    ∧ encode_rlp (.Data (List.replicate 56 1)) = 0xB8 :: 56 :: List.replicate 56 1
    ∧ encode_rlp (.List [.Data (List.replicate 54 1)])
        = 0xF7 :: encodeList [.Data (List.replicate 54 1)]
    ∧ encode_rlp (.List [.Data (List.replicate 55 1)])
        = 0xF8 :: 56 :: encodeList [.Data (List.replicate 55 1)] :=
  ⟨C3_boundary_55_56.1 _ (by simp),
   C3_boundary_55_56.2.1 _ (by simp),
   C3_boundary_55_56.2.2.1 _ (by decide),
   C3_boundary_55_56.2.2.2 _ (by decide)⟩

/-- **C5**: decode rejects no non-canonical encodings: the non-minimal
single-octet form `0x81 0x05` (canonically `0x05`) and a non-minimal
length-of-length `0xB9 0x00 0x03 ...` (length encoded with a leading zero
octet) both decode successfully to the corresponding values rather than
failing. -/
theorem C5_decode_noncanonical :
    (decode_rlp [0x81, 0x05] = .ok (.Data [0x05], [])
      ∧ encode_rlp (.Data [0x05]) = [0x05])
    ∧ (decode_rlp [0xB9, 0x00, 0x03, 0x41, 0x42, 0x43]
        = .ok (.Data [0x41, 0x42, 0x43], [])
      ∧ encode_rlp (.Data [0x41, 0x42, 0x43]) = [0x83, 0x41, 0x42, 0x43]) :=
  ⟨⟨rfl, rfl⟩, ⟨rfl, rfl⟩⟩

theorem drain_replicate (m : Nat) :
    drain m (List.replicate m 0) = some (List.replicate m 0, []) := by
  unfold drain
  simp

/-- **C4**: decode fails with `TruncatedInput` whenever a declared length
exceeds the remaining octets (in every header range), fails with
`EmptyInput` on a zero-length buffer, these are the only failure results
of the decoder, and there is no invalid-prefix failure: every first-octet
value `0x00..0xFF` admits a completion that decodes successfully.  (The
Rust decoder surfaces the two failures as panics — `expect("no more
bytes")` and the out-of-range `drain` — embedded here as explicit
`Except.error` results.) -/
theorem C4_decode_errors :
    (decode_rlp [] = .error .EmptyInput)
    ∧ (∀ b bs, 0x80 ≤ b → b ≤ 0xB7 → bs.length < b - 0x80 →
        decode_rlp (b :: bs) = .error .TruncatedInput)
    ∧ (∀ b bs, 0xB8 ≤ b → b ≤ 0xBF → bs.length < b - 0xB7 →
        decode_rlp (b :: bs) = .error .TruncatedInput)
    ∧ (∀ b bs, 0xC0 ≤ b → b ≤ 0xF7 → bs.length < b - 0xC0 →
        decode_rlp (b :: bs) = .error .TruncatedInput)
    ∧ (∀ b bs, 0xF8 ≤ b → b ≤ 0xFF → bs.length < b - 0xF7 →
        decode_rlp (b :: bs) = .error .TruncatedInput)
    ∧ (∀ e : DecodeErr, e = .EmptyInput ∨ e = .TruncatedInput)
    ∧ (∀ b, b ≤ 0xFF → ∃ tail v, decode_rlp (b :: tail) = .ok (v, [])) := by
  refine ⟨rfl, ?_, ?_, ?_, ?_, ?_, ?_⟩
  · intro b bs h1 h2 h3
    unfold decode_rlp
    rw [decodeItem_succ]
    simp only [decodeItemStep]
    rw [if_neg (by omega), if_pos (by omega), if_pos (by omega)]
    unfold drain
    rw [if_neg (by omega)]
  · intro b bs h1 h2 h3
    unfold decode_rlp
    rw [decodeItem_succ]
    simp only [decodeItemStep]
    rw [if_neg (by omega), if_pos (by omega), if_neg (by omega)]
    unfold drain
    rw [if_neg (by omega)]
  · intro b bs h1 h2 h3
    unfold decode_rlp
    rw [decodeItem_succ]
    simp only [decodeItemStep]
    rw [if_neg (by omega), if_neg (by omega), if_pos (by omega)]
    unfold drain
    rw [if_neg (by omega)]
  · intro b bs h1 h2 h3
    unfold decode_rlp
    rw [decodeItem_succ]
    simp only [decodeItemStep]
    rw [if_neg (by omega), if_neg (by omega), if_neg (by omega)]
    unfold drain
    rw [if_neg (by omega)]
  · intro e
    cases e
    · exact Or.inl rfl
    · exact Or.inr rfl
  · intro b hb
    rcases Nat.lt_or_ge b 0x80 with h7F | h80
    · refine ⟨[], .Data [b], ?_⟩
      unfold decode_rlp
      rw [decodeItem_succ]
      simp only [decodeItemStep]
      rw [if_pos (by omega)]
    · rcases Nat.lt_or_ge b 0xB8 with hB7 | hB8
      · refine ⟨List.replicate (b - 0x80) 0, .Data (List.replicate (b - 0x80) 0), ?_⟩
        unfold decode_rlp
        rw [decodeItem_succ]
        simp only [decodeItemStep]
        rw [if_neg (by omega), if_pos (by omega), if_pos (by omega)]
        rw [drain_replicate]
      · rcases Nat.lt_or_ge b 0xC0 with hBF | hC0
        · refine ⟨List.replicate (b - 0xB7) 0, .Data [], ?_⟩
          unfold decode_rlp
          rw [decodeItem_succ]
          simp only [decodeItemStep]
          rw [if_neg (by omega), if_pos (by omega), if_neg (by omega)]
          rw [drain_replicate]
          dsimp only
          rw [foldLen_zeros]
          rfl
        · rcases Nat.lt_or_ge b 0xF8 with hF7 | hF8
          · refine ⟨List.replicate (b - 0xC0) 0,
              .List (List.replicate (b - 0xC0) (.Data [0])), ?_⟩
            unfold decode_rlp
            rw [List.length_cons, decodeItem_succ]
            simp only [decodeItemStep]
            rw [if_neg (by omega), if_neg (by omega), if_pos (by omega)]
            rw [drain_replicate]
            dsimp only
            rw [runItems_zeros ((List.replicate (b - 0xC0) 0).length)
              (b - 0xC0) ((List.replicate (b - 0xC0) 0).length) (by simp)]
          · refine ⟨List.replicate (b - 0xF7) 0, .List [], ?_⟩
            unfold decode_rlp
            rw [decodeItem_succ]
            simp only [decodeItemStep]
            rw [if_neg (by omega), if_neg (by omega), if_neg (by omega)]
            rw [drain_replicate]
            dsimp only
            rw [foldLen_zeros]
            rfl

/-- Witness for C4: concrete truncated inputs in two header ranges, and a
concrete first octet admitting a successful completion. -/
theorem C4_decode_errors_witness :
    decode_rlp [0x85, 0x01, 0x02] = .error .TruncatedInput
    ∧ decode_rlp [0xF9, 0x12] = .error .TruncatedInput
    ∧ (∃ tail v, decode_rlp (0xC5 :: tail) = .ok (v, [])) :=
  ⟨C4_decode_errors.2.1 0x85 [0x01, 0x02] (by norm_num) (by norm_num) (by norm_num),
   C4_decode_errors.2.2.2.2.1 0xF9 [0x12] (by norm_num) (by norm_num) (by norm_num),
   C4_decode_errors.2.2.2.2.2.2 0xC5 (by norm_num)⟩

theorem padBe_length (k : Nat) : ∀ n, (padBe k n).length = k := by
  induction k with
  | zero => intro n; rfl
  | succ k ih =>
    intro n
    show (padBe k (n / 256) ++ [n % 256]).length = k + 1
    rw [List.length_append, ih]
    rfl

theorem beBytes_lt_pow (n : Nat) : n < 256 ^ (beBytes n).length := by
  induction n using Nat.strong_induction_on with
  | _ n ih =>
    rcases Nat.eq_zero_or_pos n with rfl | hn
    · simp [beBytes_zero]
    · rw [beBytes_succ n (by omega)]
      have hih := ih (n / 256) (Nat.div_lt_self hn (by norm_num))
      rw [List.length_append, List.length_cons, List.length_nil, pow_succ]
      have : n = 256 * (n / 256) + n % 256 := (Nat.div_add_mod n 256).symm
      have hm : n % 256 < 256 := Nat.mod_lt _ (by norm_num)
      calc n = 256 * (n / 256) + n % 256 := this
        _ < 256 * (256 ^ (beBytes (n / 256)).length) := by omega
        _ = 256 ^ (beBytes (n / 256)).length * 256 := by ring
        _ ≤ 256 ^ ((beBytes (n / 256)).length + 0) * 256 := by simp

/-- **C6**: the `Authorization` → value-model conversion encodes the
optional nonce as a nested list wrapper — an absent nonce becomes an
empty list, a present nonce a singleton list holding the nonce's minimal
big-endian byte form (which carries no leading zero octet) — surrounded
by the chain id, address, and optional signature children in the fixed
field order. -/
theorem C6_authorization_nonce_wrapper :
    (∀ a : Authorization, a.nonce = none →
      rlpOfAuthorization a
        = .List ([u256ToRlp a.chain_id, .Data a.address, .List []]
            ++ sigItems a.signature))
    ∧ (∀ (a : Authorization) (n : Nat), a.nonce = some n → n < 2 ^ 64 →
      rlpOfAuthorization a
        = .List ([u256ToRlp a.chain_id, .Data a.address,
            .List [.Data (beBytes n)]] ++ sigItems a.signature))
    ∧ (∀ n : Nat, (beBytes n).head? ≠ some 0) := by
  refine ⟨?_, ?_, beBytes_head⟩
  · intro a h
    unfold rlpOfAuthorization
    rw [h]
    rfl
  · intro a n h hn
    unfold rlpOfAuthorization
    rw [h]
    show RlpItem.List ([u256ToRlp a.chain_id, .Data a.address,
      .List [u64ToRlp n]] ++ sigItems a.signature) = _
    rw [u64ToRlp_eq n hn]

/-- Witness for C6 at a concrete authorization, without and with nonce. -/
theorem C6_authorization_nonce_wrapper_witness :
    rlpOfAuthorization ⟨1, List.replicate 20 0xAA, none, none⟩
      = .List ([u256ToRlp 1, .Data (List.replicate 20 0xAA), .List []]
          ++ sigItems none)
    ∧ rlpOfAuthorization ⟨1, List.replicate 20 0xAA, some 5, none⟩
      = .List ([u256ToRlp 1, .Data (List.replicate 20 0xAA),
          .List [.Data (beBytes 5)]] ++ sigItems none) :=
  ⟨C6_authorization_nonce_wrapper.1 _ rfl,
   C6_authorization_nonce_wrapper.2.1 _ 5 rfl (by norm_num)⟩

/-- **C7**: `sign_payload` sets `y_parity` to the low bit of the recovery
id returned by the ECDSA primitive (`recovery_id.is_y_odd()`), and the
recovery command reconstructs the recovery id from the signature-boolean
byte string as 0 when empty and 1 when non-empty; composing the two
through the RLP boolean wire convention is the identity on recovery ids
0 and 1. -/
theorem C7_recovery_id_y_parity :
    (∀ (keccak : List Nat → List Nat)
       (ecdsa : List Nat → List Nat → Nat × Nat × Nat)
       (payload : List Nat) (magic : Nat) (signer : List Nat),
      (sign_payload keccak ecdsa payload magic signer).y_parity
        = ((ecdsa signer (keccak (magic :: payload))).2.2 % 2 == 1))
    ∧ (∀ d : List Nat, recidOfYData d = if d.isEmpty then 0 else 1)
    ∧ (∀ recid : Nat, recid ≤ 1 →
        recidOfYData (boolToRlpData (recid % 2 == 1)) = recid) := by
  refine ⟨fun _ _ _ _ _ => rfl, fun _ => rfl, ?_⟩
  intro recid h
  rcases Nat.le_one_iff_eq_zero_or_eq_one.mp h with rfl | rfl <;> rfl

/-- Witness for C7 at recovery ids 0 and 1. -/
theorem C7_recovery_id_y_parity_witness :
    recidOfYData (boolToRlpData (1 % 2 == 1)) = 1
    ∧ recidOfYData (boolToRlpData (0 % 2 == 1)) = 0 :=
  ⟨C7_recovery_id_y_parity.2.2 1 (by norm_num),
   C7_recovery_id_y_parity.2.2 0 (by norm_num)⟩

/-- **C8 counterexample**: the claim fails on the code.  The CLI
`sign-tx` / `sign-auth` path emits `r` as the raw fixed 32-octet scalar
encoding (`signature.r().to_bytes().to_vec()`), so for the admissible
signature value `r = 1` — a nonzero scalar below the secp256k1 group
order, which the ECDSA primitive may return — the emitted byte string
starts with a zero octet, violating the minimal-encoding rule. -/
theorem C8_counterexample :
    cliScalarItem 1 = .Data (padBe 32 1)
    ∧ (padBe 32 1).length = 32
    ∧ ¬ rlpDataNoLeadingZero (cliScalarItem 1)
    ∧ 0 < 1 ∧ 1 < secp256k1_n := by
  refine ⟨rfl, by decide, ?_, Nat.one_pos, by norm_num [secp256k1_n]⟩
  intro hc
  exact hc (by decide : (padBe 32 1).head? = some 0)

/-- **C8 amended**: signature triples produced through the
transaction-model path (`From<Signature> for Vec<RlpItem>`, used by
`Eip1559::sign` / `Eip7702::sign` / `Authorization::sign`) carry minimal
big-endian `r` and `s` with no leading zero octet, for every scalar value;
the CLI `sign-tx` / `sign-auth` path instead emits the fixed 32-octet
scalar encoding, which carries a leading zero octet exactly when the
(nonzero) scalar is below `2 ^ 248`. -/
theorem C8_amended :
    (∀ sig : Signature, sig.r < 2 ^ 256 → sig.s < 2 ^ 256 →
      rlpOfSignature sig
        = [boolToRlp sig.y_parity, .Data (beBytes sig.r), .Data (beBytes sig.s)]
      ∧ rlpDataNoLeadingZero (.Data (beBytes sig.r))
      ∧ rlpDataNoLeadingZero (.Data (beBytes sig.s)))
    ∧ (∀ x : Nat, x < 2 ^ 256 →
      cliScalarItem x = .Data (padBe 32 x)
      ∧ (padBe 32 x).length = 32
      ∧ (0 < x → (¬ rlpDataNoLeadingZero (cliScalarItem x) ↔ x < 2 ^ 248))) := by
  constructor
  · intro sig hr hs
    refine ⟨?_, beBytes_head sig.r, beBytes_head sig.s⟩
    unfold rlpOfSignature
    rw [u256ToRlp_eq sig.r hr, u256ToRlp_eq sig.s hs]
  · intro x hx
    refine ⟨rfl, padBe_length 32 x, ?_⟩
    intro hpos
    have h32 : x < 256 ^ 32 := by norm_num at hx ⊢; omega
    have hL32 : (beBytes x).length ≤ 32 := beBytes_length_le 32 x h32
    show ¬ ((padBe 32 x).head? ≠ some 0) ↔ x < 2 ^ 248
    rw [not_not]
    constructor
    · intro hhead
      by_contra hge
      have hge' : 256 ^ 31 ≤ x := by norm_num at hge ⊢; omega
      have hlow : 31 < (beBytes x).length := by
        by_contra hsmall
        have : x < 256 ^ 31 :=
          lt_of_lt_of_le (beBytes_lt_pow x)
            (Nat.pow_le_pow_right (by norm_num) (by omega))
        omega
      have hLeq : (beBytes x).length = 32 := by omega
      rw [padBe_eq 32 x h32, hLeq] at hhead
      simp only [Nat.sub_self, List.replicate_zero, List.nil_append] at hhead
      exact beBytes_head x hhead
    · intro hlt
      have hL31 : (beBytes x).length ≤ 31 :=
        beBytes_length_le 31 x (by norm_num at hlt ⊢; omega)
      rw [padBe_eq 32 x h32]
      obtain ⟨m, hm⟩ : ∃ m, 32 - (beBytes x).length = m + 1 :=
        ⟨31 - (beBytes x).length, by omega⟩
      rw [hm, List.replicate_succ]
      rfl

/-- Witness for C8 amended, at a concrete signature and scalar. -/
theorem C8_amended_witness :
    (rlpOfSignature ⟨true, 1, 2⟩
        = [boolToRlp true, .Data (beBytes 1), .Data (beBytes 2)]
      ∧ rlpDataNoLeadingZero (.Data (beBytes 1))
      ∧ rlpDataNoLeadingZero (.Data (beBytes 2)))
    ∧ (cliScalarItem 1 = .Data (padBe 32 1)
      ∧ (padBe 32 1).length = 32
      ∧ (0 < 1 → (¬ rlpDataNoLeadingZero (cliScalarItem 1) ↔ 1 < 2 ^ 248))) :=
  ⟨C8_amended.1 ⟨true, 1, 2⟩ (by norm_num) (by norm_num),
   C8_amended.2 1 (by norm_num)⟩

/-- **C9** (spec-modelled): bulk-signing an authorization list with a
number of keys different from the number of entries requiring a signature
fails with `AuthorizerCountMismatch`; the failure result carries no
signed entries, so no partial output is produced. -/
theorem C9_authorizer_count_mismatch
    (signOne : Authorization → List Nat → Authorization)
    (auths : List Authorization) (keys : List (List Nat))
    (h : (auths.filter (fun a => a.signature.isNone)).length ≠ keys.length) :
    signAuthorizationList signOne auths keys
      = .error .AuthorizerCountMismatch := by
  unfold signAuthorizationList
  rw [if_neg h]

/-- Witness for C9: one unsigned entry, zero keys. -/
theorem C9_authorizer_count_mismatch_witness :
    signAuthorizationList (fun a _ => a) [⟨1, [], none, none⟩] []
      = .error .AuthorizerCountMismatch :=
  C9_authorizer_count_mismatch _ _ _ (by decide)

/-- **C10**: signing a transaction or authorization preserves every
non-signature field, attaches a signature, and does not depend on any
signature already attached: signing equals signing with the signature
removed first. -/
theorem C10_sign_frame :
    (∀ (keccak : List Nat → List Nat)
       (ecdsa : List Nat → List Nat → Nat × Nat × Nat)
       (tx : Eip1559) (key : List Nat), key.length = 32 →
      ((Eip1559.sign keccak ecdsa tx key).chain_id = tx.chain_id
        ∧ (Eip1559.sign keccak ecdsa tx key).nonce = tx.nonce
        ∧ (Eip1559.sign keccak ecdsa tx key).max_priority_fee_per_gas
            = tx.max_priority_fee_per_gas
        ∧ (Eip1559.sign keccak ecdsa tx key).max_fee_per_gas = tx.max_fee_per_gas
        ∧ (Eip1559.sign keccak ecdsa tx key).gas_limit = tx.gas_limit
        ∧ (Eip1559.sign keccak ecdsa tx key).destination = tx.destination
        ∧ (Eip1559.sign keccak ecdsa tx key).amount = tx.amount
        ∧ (Eip1559.sign keccak ecdsa tx key).data = tx.data
        ∧ (Eip1559.sign keccak ecdsa tx key).access_list = tx.access_list)
      ∧ (Eip1559.sign keccak ecdsa tx key).signature.isSome = true
      ∧ Eip1559.sign keccak ecdsa tx key
          = Eip1559.sign keccak ecdsa { tx with signature := none } key)
    ∧ (∀ (keccak : List Nat → List Nat)
       (ecdsa : List Nat → List Nat → Nat × Nat × Nat)
       (tx : Eip7702) (key : List Nat), key.length = 32 →
      ((Eip7702.sign keccak ecdsa tx key).chain_id = tx.chain_id
        ∧ (Eip7702.sign keccak ecdsa tx key).nonce = tx.nonce
        ∧ (Eip7702.sign keccak ecdsa tx key).max_priority_fee_per_gas
            = tx.max_priority_fee_per_gas
        ∧ (Eip7702.sign keccak ecdsa tx key).max_fee_per_gas = tx.max_fee_per_gas
        ∧ (Eip7702.sign keccak ecdsa tx key).gas_limit = tx.gas_limit
        ∧ (Eip7702.sign keccak ecdsa tx key).destination = tx.destination
        ∧ (Eip7702.sign keccak ecdsa tx key).amount = tx.amount
        ∧ (Eip7702.sign keccak ecdsa tx key).data = tx.data
        ∧ (Eip7702.sign keccak ecdsa tx key).access_list = tx.access_list
        ∧ (Eip7702.sign keccak ecdsa tx key).authorization_list
            = tx.authorization_list)
      ∧ (Eip7702.sign keccak ecdsa tx key).signature.isSome = true
      ∧ Eip7702.sign keccak ecdsa tx key
          = Eip7702.sign keccak ecdsa { tx with signature := none } key)
    ∧ (∀ (keccak : List Nat → List Nat)
       (ecdsa : List Nat → List Nat → Nat × Nat × Nat)
       (a : Authorization) (key : List Nat), key.length = 32 →
      ((Authorization.sign keccak ecdsa a key).chain_id = a.chain_id
        ∧ (Authorization.sign keccak ecdsa a key).address = a.address
        ∧ (Authorization.sign keccak ecdsa a key).nonce = a.nonce)
      ∧ (Authorization.sign keccak ecdsa a key).signature.isSome = true
      ∧ Authorization.sign keccak ecdsa a key
          = Authorization.sign keccak ecdsa { a with signature := none } key) :=
  ⟨fun _ _ _ _ _ =>
    ⟨⟨rfl, rfl, rfl, rfl, rfl, rfl, rfl, rfl, rfl⟩, rfl, rfl⟩,
   fun _ _ _ _ _ =>
    ⟨⟨rfl, rfl, rfl, rfl, rfl, rfl, rfl, rfl, rfl, rfl⟩, rfl, rfl⟩,
   fun _ _ _ _ _ => ⟨⟨rfl, rfl, rfl⟩, rfl, rfl⟩⟩

/-- Witness for C10 at a concrete transaction, authorization and
32-octet key. -/
theorem C10_sign_frame_witness :
    (Eip1559.sign (fun _ => []) (fun _ _ => (1, 2, 0))
        ⟨0, 0, 0, 0, 0, [], 0, [], [], none⟩
        (List.replicate 32 0)).signature.isSome = true
    ∧ (Authorization.sign (fun _ => []) (fun _ _ => (1, 2, 0))
        ⟨0, [], none, none⟩ (List.replicate 32 0)).signature.isSome = true :=
  ⟨(C10_sign_frame.1 _ _ _ _ (by simp)).2.1,
   (C10_sign_frame.2.2 _ _ _ _ (by simp)).2.1⟩

end TxUtil
